import Mathlib

/-!
Verification of `crates/oxc_transformer/src/common/top_level_statements.rs`.

The Rust module holds a `TopLevelStatementsStore` (a `RefCell<Vec<Statement>>`
buffer) and a `TopLevelStatements` traversal pass whose `exit_program` hook
drains the buffer and splices the drained statements into `program.body`
immediately after the last existing `import` statement.

The embedding below is a direct state-passing translation: the `RefCell`'s
contents become an explicit field, a `Vec` becomes a `List`, `push` appends at
the end, `rposition` is the last index satisfying a predicate, and
`splice(index..index, iter)` inserts the iterator's items at `index`.
A second, borrow-flag-carrying model (`StoreCell`) additionally embeds the
`RefCell` dynamic borrow rule (`borrow_mut` panics when the cell is already
mutably borrowed) for the reentrancy property.
-/

/-- Modelled from the spec: a top-level AST statement. The only discrimination
the source performs is `matches!(stmt, Statement::ImportDeclaration(_))`, so
all non-import statement variants are collapsed into `other kind data`, with
`kind` ranging over the remaining AST variants. -/
inductive Statement where
  | importDeclaration (data : Nat)
  | other (kind : Nat) (data : Nat)
  deriving DecidableEq, Repr

/-- Embeds `matches!(stmt, Statement::ImportDeclaration(_))` from `exit_program`. -/
def Statement.isImportDeclaration : Statement → Bool
  | .importDeclaration _ => true
  | .other _ _ => false

/-- Modelled from the spec: the `Program` AST root holds an ordered sequence of
top-level statements (the body); all its other fields (span, source type,
directives, …) are irrelevant to this module and collapsed into an abstract
`rest` of arbitrary type. -/
structure Program (ρ : Type) where
  rest : ρ
  body : List Statement
  deriving DecidableEq, Repr

/-- State of `TopLevelStatementsStore`: the `RefCell<Vec<Statement>>` contents
as an explicit value (the borrow flag is modelled separately in `StoreCell`). -/
structure TopLevelStatementsStore where
  stmts : List Statement
  deriving DecidableEq, Repr

/-- Constructor `TopLevelStatementsStore::new`. -/
def TopLevelStatementsStore.new : TopLevelStatementsStore := ⟨[]⟩

/-- Method `TopLevelStatementsStore::insert_statement`:
`self.stmts.borrow_mut().push(stmt)`. -/
def insert_statement (store : TopLevelStatementsStore) (stmt : Statement) :
    TopLevelStatementsStore :=
  { store with stmts := store.stmts ++ [stmt] }

/-- Rust `Iterator::rposition`: the index (from the front) of the last element
satisfying `p`, found by scanning from the end; `none` if no element matches. -/
def rposition (p : α → Bool) : List α → Option Nat
  | [] => none
  | a :: l =>
    match rposition p l with
    | some i => some (i + 1)
    | none => if p a then some 0 else none

/-- The insertion index computed by `exit_program` (lines 44–48):
`body.iter().rposition(|stmt| matches!(stmt, Statement::ImportDeclaration(_))).map_or(0, |i| i + 1)`. -/
def insertionIndex (body : List Statement) : Nat :=
  (rposition Statement.isImportDeclaration body).elim 0 (fun i => i + 1)

/-- Embeds `Vec::splice(index..index, iter)`: replace the empty range at
`index` with `items`, i.e. insert `items` at `index`, shifting later elements
right. -/
def spliceAt (body : List Statement) (index : Nat) (items : List Statement) :
    List Statement :=
  body.take index ++ items ++ body.drop index

/-- Hook `TopLevelStatements::exit_program`: if the buffered statements are empty,
return without touching the program; otherwise splice the drained buffer into
the body at the insertion index. Returns the updated store and program. -/
def exit_program (store : TopLevelStatementsStore) (program : Program ρ) :
    TopLevelStatementsStore × Program ρ :=
  if store.stmts.isEmpty then
    (store, program)
  else
    let index := insertionIndex program.body
    (⟨[]⟩, { program with body := spliceAt program.body index store.stmts })

/-- Embeds `Vec::drain(..)` on the store: return all pending statements in
order and empty the store. -/
def drain (store : TopLevelStatementsStore) :
    List Statement × TopLevelStatementsStore :=
  (store.stmts, ⟨[]⟩)

/-- The dynamic borrow state of the `RefCell<Vec<Statement>>`. This file only
ever takes mutable borrows, so shared-borrow counts are not needed. -/
inductive BorrowFlag where
  | free
  | borrowedMut
  deriving DecidableEq, Repr

/-- The store together with its `RefCell` borrow flag, for the reentrancy
model: `borrow_mut` on an already mutably borrowed cell panics (`none`). -/
structure StoreCell where
  flag : BorrowFlag
  stmts : List Statement
  deriving DecidableEq, Repr

/-- Variant of `insert_statement` against the borrow-checked cell: `borrow_mut` panics
(`none`) if the cell is already mutably borrowed — e.g. reentrantly, from
within `exit_program`'s in-progress drain-and-splice — otherwise pushes and
releases the borrow. -/
def insert_statement_checked (store : StoreCell) (stmt : Statement) :
    Option StoreCell :=
  match store.flag with
  | .borrowedMut => none
  | .free => some { store with stmts := store.stmts ++ [stmt] }

/-- Variant of `exit_program` against the borrow-checked cell: its `borrow_mut` at entry
panics (`none`) if the cell is already mutably borrowed; otherwise it behaves
as `exit_program` and releases the borrow before returning. -/
def exit_program_checked (store : StoreCell) (program : Program ρ) :
    Option (StoreCell × Program ρ) :=
  match store.flag with
  | .borrowedMut => none
  | .free =>
    if store.stmts.isEmpty then
      some (store, program)
    else
      let index := insertionIndex program.body
      some (⟨.free, []⟩, { program with body := spliceAt program.body index store.stmts })

/-! ### Helper lemmas about `rposition` -/

/-- If no element satisfies `p`, `rposition` finds nothing. -/
theorem rposition_eq_none_of_all_false {p : α → Bool} {l : List α}
    (h : ∀ a ∈ l, p a = false) : rposition p l = none := by
  induction l with
  | nil => rfl
  | cons a l ih =>
    have ht : rposition p l = none := ih (fun b hb => h b (List.mem_cons_of_mem a hb))
    simp [rposition, ht, h a (List.mem_cons_self a l)]

/-- Value of `rposition` over an append when nothing in the right part
matches: the result is that of the left part. -/
theorem rposition_append_of_none {p : α → Bool} {l₂ : List α}
    (h₂ : rposition p l₂ = none) (l₁ : List α) :
    rposition p (l₁ ++ l₂) = rposition p l₁ := by
  induction l₁ with
  | nil => simpa [rposition] using h₂
  | cons a l₁ ih => simp only [List.cons_append, rposition, List.append_eq, ih]

/-- Value of `rposition` over an append when the right part matches: the last
match of the right part wins, shifted by the left length. -/
theorem rposition_append_of_some {p : α → Bool} {l₂ : List α} {i : Nat}
    (h₂ : rposition p l₂ = some i) (l₁ : List α) :
    rposition p (l₁ ++ l₂) = some (l₁.length + i) := by
  induction l₁ with
  | nil => simpa using h₂
  | cons a l₁ ih =>
    simp only [List.cons_append, rposition, List.append_eq, ih, List.length_cons]
    simp [Nat.add_right_comm]

/-- If every element satisfies `p` and the list is non-empty, the last index
matches. -/
theorem rposition_eq_last_of_all_true {p : α → Bool} {l : List α}
    (hne : l ≠ []) (h : ∀ a ∈ l, p a = true) :
    rposition p l = some (l.length - 1) := by
  induction l with
  | nil => exact absurd rfl hne
  | cons a l ih =>
    cases l with
    | nil => simp [rposition, h a (List.mem_cons_self a [])]
    | cons b l =>
      have ht := ih (by simp) (fun x hx => h x (List.mem_cons_of_mem a hx))
      have hunf : rposition p (a :: b :: l) =
          match rposition p (b :: l) with
          | some i => some (i + 1)
          | none => if p a = true then some 0 else none := rfl
      rw [hunf, ht]
      simp

/-- Any index returned by `rposition` is in bounds. -/
theorem rposition_lt_length {p : α → Bool} {l : List α} {i : Nat}
    (h : rposition p l = some i) : i < l.length := by
  induction l generalizing i with
  | nil => simp [rposition] at h
  | cons a l ih =>
    simp only [rposition] at h
    cases ht : rposition p l with
    | some j =>
      rw [ht] at h
      simp only [Option.some.injEq] at h
      subst h
      exact Nat.succ_lt_succ (ih ht)
    | none =>
      rw [ht] at h
      by_cases hp : p a = true
      · simp [hp] at h
        subst h
        exact Nat.succ_pos _
      · simp [hp] at h

/-- `rposition` only looks at the image of the predicate. -/
theorem rposition_congr_map {p : α → Bool} {l₁ l₂ : List α}
    (h : l₁.map p = l₂.map p) : rposition p l₁ = rposition p l₂ := by
  induction l₁ generalizing l₂ with
  | nil =>
    cases l₂ with
    | nil => rfl
    | cons b l₂ => simp at h
  | cons a l₁ ih =>
    cases l₂ with
    | nil => simp at h
    | cons b l₂ =>
      simp only [List.map_cons, List.cons.injEq] at h
      simp [rposition, ih h.2, h.1]

/-- If position `i` matches `p` and every later position does not, `rposition`
returns `i`. -/
theorem rposition_eq_some_of {p : α → Bool} {l : List α} {i : Nat} (h : i < l.length)
    (hm : p (l.get ⟨i, h⟩) = true)
    (ha : ∀ j (hj : j < l.length), i < j → p (l.get ⟨j, hj⟩) = false) :
    rposition p l = some i := by
  induction l generalizing i with
  | nil => exact absurd h (by simp)
  | cons a l ih =>
    cases i with
    | zero =>
      have hnone : rposition p l = none := by
        apply rposition_eq_none_of_all_false
        intro x hx
        obtain ⟨⟨j, hj⟩, rfl⟩ := List.mem_iff_get.mp hx
        have := ha (j + 1) (by simpa using Nat.succ_lt_succ hj) (Nat.succ_pos j)
        simpa using this
      have hpa : p a = true := by simpa using hm
      simp [rposition, hnone, hpa]
    | succ i' =>
      have h' : i' < l.length := Nat.lt_of_succ_lt_succ h
      have hm' : p (l.get ⟨i', h'⟩) = true := by simpa using hm
      have ha' : ∀ j (hj : j < l.length), i' < j → p (l.get ⟨j, hj⟩) = false := by
        intro j hj hij
        have := ha (j + 1) (by simpa using Nat.succ_lt_succ hj) (Nat.succ_lt_succ hij)
        simpa using this
      have ht := ih h' hm' ha'
      simp [rposition, ht]

/-- Insertion index over a body that is a block of imports followed by a block
of non-imports: the index is exactly the number of imports. -/
theorem insertionIndex_imports_prefix {imps others : List Statement}
    (hi : ∀ s ∈ imps, s.isImportDeclaration = true)
    (ho : ∀ s ∈ others, s.isImportDeclaration = false) :
    insertionIndex (imps ++ others) = imps.length := by
  have hnone : rposition Statement.isImportDeclaration others = none :=
    rposition_eq_none_of_all_false ho
  cases imps with
  | nil => simp [insertionIndex, hnone]
  | cons a l =>
    have hsome : rposition Statement.isImportDeclaration (a :: l) =
        some ((a :: l).length - 1) :=
      rposition_eq_last_of_all_true (by simp) hi
    have happ := rposition_append_of_none hnone (a :: l)
    unfold insertionIndex
    rw [happ, hsome]
    simp

/-! ### Claims -/

/-- C1: flushing a non-empty buffer produces a body equal to
`body[0..p] ++ buffered ++ body[p..]` where `p` is the insertion point — the
drained statements keep their relative order and everything at or after `p`
shifts right by the drained count. In particular, for a body of `K` imports
followed by `M` non-imports and `N` appended statements, the result is the
imports, then the appended statements in order, then the others, of total
length `K + N + M`. -/
theorem C1_flush_splices_at_insertion_point :
    (∀ (store : TopLevelStatementsStore) {ρ : Type} (program : Program ρ),
      store.stmts ≠ [] →
        (exit_program store program).2.body =
          program.body.take (insertionIndex program.body) ++ store.stmts ++
            program.body.drop (insertionIndex program.body)) ∧
    (∀ (imps others appended : List Statement) {ρ : Type} (r : ρ),
      (∀ s ∈ imps, s.isImportDeclaration = true) →
      (∀ s ∈ others, s.isImportDeclaration = false) →
      appended ≠ [] →
        (exit_program ⟨appended⟩ ⟨r, imps ++ others⟩).2.body =
          imps ++ appended ++ others ∧
        (exit_program ⟨appended⟩ ⟨r, imps ++ others⟩).2.body.length =
          imps.length + appended.length + others.length) := by
  constructor
  · intro store ρ program h
    simp [exit_program, h, spliceAt]
  · intro imps others appended ρ r hi ho hne
    have hidx := insertionIndex_imports_prefix hi ho
    have hbody : (exit_program ⟨appended⟩ ⟨r, imps ++ others⟩).2.body =
        imps ++ appended ++ others := by
      simp [exit_program, hne, spliceAt, hidx, List.take_left, List.drop_left]
    refine ⟨hbody, ?_⟩
    simp [hbody, Nat.add_assoc]

/-- C1 witness: Scenario A shape — one import, one other statement, one
appended statement lands between them. -/
theorem C1_flush_splices_at_insertion_point_witness :
    (exit_program ⟨[Statement.other 2 5]⟩
        ⟨(0 : Nat), [Statement.importDeclaration 0, Statement.other 1 0]⟩).2.body =
      [Statement.importDeclaration 0] ++ [Statement.other 2 5] ++
        [Statement.other 1 0] :=
  (C1_flush_splices_at_insertion_point.2 [Statement.importDeclaration 0]
      [Statement.other 1 0] [Statement.other 2 5] (0 : Nat)
      (by decide) (by decide) (by decide)).1

/-- C2: the insertion point is 0 when no statement of the body is an import
declaration; it is `i + 1` when `i` is the position of the last import
declaration; and it depends only on which positions hold import declarations,
so no other statement kind influences it. -/
theorem C2_insertion_point_characterisation :
    (∀ body : List Statement,
      (∀ s ∈ body, s.isImportDeclaration = false) → insertionIndex body = 0) ∧
    (∀ (body : List Statement) (i : Nat) (h : i < body.length),
      (body.get ⟨i, h⟩).isImportDeclaration = true →
      (∀ j (hj : j < body.length), i < j →
        (body.get ⟨j, hj⟩).isImportDeclaration = false) →
      insertionIndex body = i + 1) ∧
    (∀ b₁ b₂ : List Statement,
      b₁.map Statement.isImportDeclaration = b₂.map Statement.isImportDeclaration →
      insertionIndex b₁ = insertionIndex b₂) := by
  refine ⟨?_, ?_, ?_⟩
  · intro body h
    simp [insertionIndex, rposition_eq_none_of_all_false h]
  · intro body i h hm ha
    simp [insertionIndex, rposition_eq_some_of h hm ha]
  · intro b₁ b₂ h
    simp [insertionIndex, rposition_congr_map h]

/-- C2 witness: no-import body gives 0; a last import at position 0 of a
two-statement body gives 1. -/
theorem C2_insertion_point_characterisation_witness :
    insertionIndex [Statement.other 0 0] = 0 ∧
    insertionIndex [Statement.importDeclaration 0, Statement.other 0 0] = 1 :=
  ⟨C2_insertion_point_characterisation.1 [Statement.other 0 0] (by decide),
   C2_insertion_point_characterisation.2.1
     [Statement.importDeclaration 0, Statement.other 0 0] 0 (by decide)
     (by decide) (by decide)⟩

/-- C3: flushing with an empty buffer returns without mutating the program:
the program (body included) is identical afterwards. -/
theorem C3_empty_buffer_flush_is_noop (store : TopLevelStatementsStore)
    {ρ : Type} (program : Program ρ) (h : store.stmts = []) :
    (exit_program store program).2 = program := by
  simp [exit_program, h]

/-- C3 witness at a concrete store and program. -/
theorem C3_empty_buffer_flush_is_noop_witness :
    (exit_program ⟨[]⟩ ⟨(0 : Nat), [Statement.other 0 0]⟩).2 =
      ⟨(0 : Nat), [Statement.other 0 0]⟩ :=
  C3_empty_buffer_flush_is_noop ⟨[]⟩ ⟨(0 : Nat), [Statement.other 0 0]⟩ rfl

/-- C4: after a flush the buffer is always empty, and a subsequent `drain`
with no intervening append returns an empty sequence. -/
theorem C4_buffer_empty_after_flush (store : TopLevelStatementsStore)
    {ρ : Type} (program : Program ρ) :
    (exit_program store program).1.stmts = [] ∧
    (drain (exit_program store program).1).1 = [] := by
  by_cases h : store.stmts = []
  · simp [exit_program, drain, h]
  · simp [exit_program, drain, h]

/-- C5: a reentrant call into the buffer while the cell is mutably borrowed —
as when `insert_statement` is invoked from within `exit_program`'s in-progress
drain-and-splice — fails loudly (`none`, the borrow panic) instead of
completing; with the borrow flag free at entry, as under the non-reentrant
single-owner protocol, both operations always succeed. -/
theorem C5_reentrant_call_fails_loudly (store : StoreCell) (stmt : Statement)
    {ρ : Type} (program : Program ρ) :
    (store.flag = BorrowFlag.borrowedMut →
      insert_statement_checked store stmt = none ∧
      exit_program_checked store program = none) ∧
    (store.flag = BorrowFlag.free →
      (insert_statement_checked store stmt).isSome ∧
      (exit_program_checked store program).isSome) := by
  constructor
  · intro h
    constructor
    · simp [insert_statement_checked, h]
    · simp [exit_program_checked, h]
  · intro h
    constructor
    · simp [insert_statement_checked, h]
    · by_cases he : store.stmts = [] <;>
        simp [exit_program_checked, h, he]

/-- C5 witness: a concrete reentrant append fails; a concrete single-owner
append succeeds. -/
theorem C5_reentrant_call_fails_loudly_witness :
    insert_statement_checked ⟨BorrowFlag.borrowedMut, []⟩ (Statement.other 0 0) =
      none ∧
    (insert_statement_checked ⟨BorrowFlag.free, []⟩ (Statement.other 0 0)).isSome :=
  ⟨((C5_reentrant_call_fails_loudly ⟨BorrowFlag.borrowedMut, []⟩
      (Statement.other 0 0) (⟨(0 : Nat), []⟩ : Program Nat)).1 rfl).1,
   ((C5_reentrant_call_fails_loudly ⟨BorrowFlag.free, []⟩
      (Statement.other 0 0) (⟨(0 : Nat), []⟩ : Program Nat)).2 rfl).1⟩

/-- C6: flushing into a program with an empty body is total and well-defined:
the insertion index on the empty body is 0, and the resulting body is exactly
the buffer contents — in particular empty body with empty buffer stays empty. -/
theorem C6_flush_into_empty_body (store : TopLevelStatementsStore)
    {ρ : Type} (r : ρ) :
    insertionIndex [] = 0 ∧
    (exit_program store (⟨r, []⟩ : Program ρ)).2.body = store.stmts := by
  refine ⟨rfl, ?_⟩
  by_cases h : store.stmts = []
  · simp [exit_program, h]
  · simp [exit_program, h, spliceAt, insertionIndex, rposition]

/-- C7: `insert_statement` appends the statement at the end of the pending
sequence: the length grows by one, every previously buffered statement keeps
its position, and the new statement is last. Being a total function, it never
fails and returns only the updated store. -/
theorem C7_insert_statement_appends_at_end (store : TopLevelStatementsStore)
    (stmt : Statement) :
    (insert_statement store stmt).stmts.length = store.stmts.length + 1 ∧
    (∀ i, i < store.stmts.length →
      (insert_statement store stmt).stmts[i]? = store.stmts[i]?) ∧
    (insert_statement store stmt).stmts.getLast? = some stmt := by
  refine ⟨by simp [insert_statement], ?_, ?_⟩
  · intro i hi
    simp [insert_statement, List.getElem?_append_left hi]
  · simp [insert_statement, List.getLast?_concat]

/-- C7 witness at a one-element buffer. -/
theorem C7_insert_statement_appends_at_end_witness :
    (insert_statement ⟨[Statement.other 0 0]⟩
        (Statement.importDeclaration 1)).stmts.length = 2 ∧
    (insert_statement ⟨[Statement.other 0 0]⟩
        (Statement.importDeclaration 1)).stmts[0]? = some (Statement.other 0 0) ∧
    (insert_statement ⟨[Statement.other 0 0]⟩
        (Statement.importDeclaration 1)).stmts.getLast? =
      some (Statement.importDeclaration 1) := by
  obtain ⟨h1, h2, h3⟩ := C7_insert_statement_appends_at_end
    ⟨[Statement.other 0 0]⟩ (Statement.importDeclaration 1)
  exact ⟨by simpa using h1, by simpa using h2 0 (by decide), h3⟩

/-- C8: flush is idempotent when no append intervenes: running `exit_program`
a second time on the store and program produced by the first run changes
nothing, because the first run leaves the buffer empty. -/
theorem C8_flush_idempotent (store : TopLevelStatementsStore)
    {ρ : Type} (program : Program ρ) :
    exit_program (exit_program store program).1 (exit_program store program).2 =
      exit_program store program := by
  by_cases h : store.stmts = []
  · simp [exit_program, h]
  · simp [exit_program, h]

/-- C9: the flush mutates only the body: the program's other fields,
abstracted as the `rest` component of arbitrary type, are untouched by
`exit_program` (and `insert_statement` does not take the program at all). -/
theorem C9_flush_preserves_other_fields (store : TopLevelStatementsStore)
    {ρ : Type} (program : Program ρ) :
    (exit_program store program).2.rest = program.rest := by
  by_cases h : store.stmts = [] <;> simp [exit_program, h]

/-- C10: the insertion index is total and in bounds: `p ≤ body.length`, so the
splice at `p..p` never falls outside the body. -/
theorem C10_insertion_index_le_length (body : List Statement) :
    insertionIndex body ≤ body.length := by
  unfold insertionIndex
  cases h : rposition Statement.isImportDeclaration body with
  | none => simp
  | some i => simpa using rposition_lt_length h
